import Mathlib

/-!
Verification of `addons/account/models/account_account.py`: the account-code
allocator, the account-group hierarchy resolver, the merge validation and
execution protocol, and the surrounding invariant checks, embedded shallowly
in Lean.  Python strings are modelled as `String` or `List Char`, recordsets
as lists of records in recordset order, and raised exceptions as `Except`
results.
-/

/-- Error taxonomy of `odoo.exceptions` as used by the verified module:
`UserError`, `ValidationError` and `RedirectWarning` are distinct exception
classes. -/
inductive OdooError where
  | userError (msg : String)
  | validationError (msg : String)
  | redirectWarning (msg : String)
deriving DecidableEq, Repr

/-- True exactly for `ValidationError` values. -/
def OdooError.isValidationError : OdooError → Bool
  | .validationError _ => true
  | _ => false

/-- The error component of an `Except` result, if any. -/
def errorOf : Except OdooError α → Option OdooError
  | .error e => some e
  | .ok _ => none

/-- Account codes as the Python strings they are: lists of characters. -/
abbrev Code := List Char

/-! ### CodeAllocator: `AccountAccount._search_new_account_code` -/

/-- Numeric value of a run of decimal digit characters (`int(digits_str)`). -/
def natValOfDigits (ds : Code) : Nat :=
  ds.foldl (fun acc c => acc * 10 + (c.toNat - 48)) 0

/-- Decimal digit characters of `n`, most significant first. -/
def natToDigits (n : Nat) : Code :=
  (Nat.digits 10 n).reverse.map (fun k => Char.ofNat (48 + k))

/-- Zero-pad the decimal representation of `num` to width `d`, as the Python
format `f'{num:0{d}}'` does. -/
def padNum (d num : Nat) : Code :=
  List.replicate (d - (natToDigits num).length) '0' ++ natToDigits num

/-- Split a code the way `ACCOUNT_CODE_NUMBER_REGEX = r'(.*?)(\d*)(\D*?)$'`
does: the third component is the maximal non-digit suffix, the second the
maximal digit run immediately preceding it, and the first the remainder. -/
def splitCode (s : Code) : Code × Code × Code :=
  ((((s.reverse.dropWhile (fun c => !c.isDigit)).dropWhile (fun c => c.isDigit)).reverse,
    ((s.reverse.dropWhile (fun c => !c.isDigit)).takeWhile (fun c => c.isDigit)).reverse,
    (s.reverse.takeWhile (fun c => !c.isDigit)).reverse) : Code × Code × Code)

/-- The availability test `code_is_available` of `_search_new_account_code`:
not in the caller-provided cache, and not used according to the store (the
store lookup `search_count([('code', '=', new_code)])` is abstracted by the
predicate `isUsed`). -/
def codeIsAvailable (isUsed : Code → Bool) (cache : List Code) (c : Code) : Bool :=
  !cache.contains c && !isUsed c

/-- The suffix `f'.copy{num and num + 1 or ""}'`: `.copy` for `num = 0` and
`.copy2`, `.copy3`, ... for `num = 1, 2, ...`. -/
def copySuffix (num : Nat) : Code :=
  if num = 0 then ".copy".toList else ".copy".toList ++ natToDigits (num + 1)

/-- Candidates of the digit-increment phase of `_search_new_account_code`:
`f'{start_str}{num:0{d}}{end_str}'` for `num` in `range(n + 1, 10 ** d)`,
empty when the digit run is absent. -/
def digitCandidates (startCode : Code) : List Code :=
  if (splitCode startCode).2.1 = [] then []
  else
    (List.range' (natValOfDigits (splitCode startCode).2.1 + 1)
        (10 ^ ((splitCode startCode).2.1).length - (natValOfDigits (splitCode startCode).2.1 + 1))).map
      (fun num => (splitCode startCode).1 ++ padNum ((splitCode startCode).2.1).length num ++
        (splitCode startCode).2.2)

/-- Candidates of the copy-suffix fallback phase of
`_search_new_account_code`: `start_code` followed by `copySuffix num` for
`num` in `range(99)`. -/
def copyCandidates (startCode : Code) : List Code :=
  (List.range 99).map (fun num => startCode ++ copySuffix num)

/-- Shallow embedding of `AccountAccount._search_new_account_code`.
`cacheOpt = none` models the Python default `cache=None`, which makes the
method use `cache = {start_code}`. -/
def search_new_account_code (isUsed : Code → Bool) (cacheOpt : Option (List Code))
    (startCode : Code) : Except OdooError Code :=
  if codeIsAvailable isUsed (cacheOpt.getD [startCode]) startCode then .ok startCode
  else
    match (digitCandidates startCode).find? (codeIsAvailable isUsed (cacheOpt.getD [startCode])) with
    | some c => .ok c
    | none =>
      match (copyCandidates startCode).find?
          (codeIsAvailable isUsed (cacheOpt.getD [startCode])) with
      | some c => .ok c
      | none => .error (.userError "Cannot generate an unused account code.")

theorem splitCode_append (s : Code) :
    (splitCode s).1 ++ (splitCode s).2.1 ++ (splitCode s).2.2 = s := by
  simp only [splitCode]
  rw [← List.reverse_append, ← List.reverse_append,
    List.takeWhile_append_dropWhile, List.takeWhile_append_dropWhile,
    List.reverse_reverse]

theorem natToDigits_length_le (num d : Nat) (h : num < 10 ^ d) :
    (natToDigits num).length ≤ d := by
  unfold natToDigits
  rcases Nat.eq_zero_or_pos num with rfl | hn
  · simp
  · simp only [List.length_map, List.length_reverse]
    rw [Nat.digits_len 10 num (by norm_num) (Nat.pos_iff_ne_zero.mp hn)]
    have := Nat.log_lt_of_lt_pow (Nat.pos_iff_ne_zero.mp hn) h
    omega

theorem padNum_length (d num : Nat) (h : num < 10 ^ d) : (padNum d num).length = d := by
  unfold padNum
  have := natToDigits_length_le num d h
  rw [List.length_append, List.length_replicate]
  omega

theorem codeIsAvailable_eq_true {isUsed : Code → Bool} {cache : List Code} {c : Code}
    (h : codeIsAvailable isUsed cache c = true) :
    isUsed c = false ∧ cache.contains c = false := by
  unfold codeIsAvailable at h
  rw [Bool.and_eq_true, Bool.not_eq_true', Bool.not_eq_true'] at h
  exact ⟨h.2, h.1⟩

theorem mem_digitCandidates {startCode c : Code} (h : c ∈ digitCandidates startCode) :
    c.length = startCode.length := by
  unfold digitCandidates at h
  split at h
  · simp at h
  · rename_i hne
    rw [List.mem_map] at h
    obtain ⟨num, hnum, rfl⟩ := h
    rw [List.mem_range'_1] at hnum
    have hlt : num < 10 ^ ((splitCode startCode).2.1).length := by omega
    have hpad := padNum_length ((splitCode startCode).2.1).length num hlt
    have hlen := congrArg List.length (splitCode_append startCode)
    simp only [List.length_append] at hlen
    simp only [List.length_append, hpad]
    omega

theorem mem_copyCandidates {startCode c : Code} (h : c ∈ copyCandidates startCode) :
    ∃ k, k < 99 ∧ c = startCode ++ copySuffix k := by
  unfold copyCandidates at h
  rw [List.mem_map] at h
  obtain ⟨k, hk, rfl⟩ := h
  exact ⟨k, List.mem_range.mp hk, rfl⟩

/-- C4: whenever `_search_new_account_code` returns a code, that code is not
in the used-set and not in the already-tried cache; it has the same length as
`start_code` unless it is a `.copy`-suffix fallback candidate; and the exact
input `start_code` is returned if and only if `start_code` is itself
available (the only case that can return the exact input). -/
theorem search_new_account_code_postcondition
    (isUsed : Code → Bool) (cacheOpt : Option (List Code)) (startCode r : Code)
    (h : search_new_account_code isUsed cacheOpt startCode = .ok r) :
    (isUsed r = false ∧ (cacheOpt.getD [startCode]).contains r = false) ∧
    (r.length = startCode.length ∨ ∃ k, k < 99 ∧ r = startCode ++ copySuffix k) ∧
    (r = startCode ↔ codeIsAvailable isUsed (cacheOpt.getD [startCode]) startCode = true) := by
  unfold search_new_account_code at h
  split at h
  · rename_i hav
    cases h
    exact ⟨codeIsAvailable_eq_true hav, Or.inl rfl, by simp [hav]⟩
  · rename_i hnav
    have hnav' : codeIsAvailable isUsed (cacheOpt.getD [startCode]) startCode = false := by
      simpa using hnav
    split at h
    · rename_i c hfind
      cases h
      have hav : codeIsAvailable isUsed (cacheOpt.getD [startCode]) r = true :=
        List.find?_some hfind
      have hmem := List.mem_of_find?_eq_some hfind
      refine ⟨codeIsAvailable_eq_true hav, Or.inl (mem_digitCandidates hmem), ?_, ?_⟩
      · intro heq; rw [heq] at hav; exact hav
      · intro hs; rw [hs] at hnav'; exact Bool.noConfusion hnav'
    · split at h
      · rename_i c hfind
        cases h
        have hav : codeIsAvailable isUsed (cacheOpt.getD [startCode]) r = true :=
          List.find?_some hfind
        have hmem := List.mem_of_find?_eq_some hfind
        refine ⟨codeIsAvailable_eq_true hav, Or.inr (mem_copyCandidates hmem), ?_, ?_⟩
        · intro heq; rw [heq] at hav; exact hav
        · intro hs; rw [hs] at hnav'; exact Bool.noConfusion hnav'
      · cases h

/-- Closed instantiation of the C4 theorem: with an empty cache and nothing
used, the exact input is returned. -/
theorem search_new_account_code_postcondition_witness :
    ((fun _ => false) : Code → Bool) ['1'] = false ∧
      (List.contains ([] : List Code) ['1'] = false) ∧
      (['1'] : Code) = ['1'] := by
  have h := search_new_account_code_postcondition (fun _ => false) (some []) ['1'] ['1']
    (by rfl)
  exact ⟨h.1.1, h.1.2, h.2.2.mpr (by decide)⟩

theorem find?_map_range'_eq_some (p : α → Bool) (f : Nat → α) (a n k : Nat)
    (hk : k < n) (hpk : p (f (a + k)) = true)
    (hmin : ∀ j, j < k → p (f (a + j)) = false) :
    ((List.range' a n).map f).find? p = some (f (a + k)) := by
  induction n generalizing a k with
  | zero => omega
  | succ m ih =>
    rw [List.range'_succ, List.map_cons]
    cases k with
    | zero =>
      rw [List.find?_cons_of_pos _ (by simpa using hpk)]
      simp
    | succ k' =>
      rw [List.find?_cons_of_neg _ (by simpa using hmin 0 (by omega))]
      have hres := ih (a + 1) k' (by omega)
        (by rw [show a + 1 + k' = a + (k' + 1) by omega]; exact hpk)
        (fun j hj => by
          rw [show a + 1 + j = a + (j + 1) by omega]
          exact hmin (j + 1) (by omega))
      rw [hres, show a + 1 + k' = a + (k' + 1) by omega]

/-- C5: when the digit-increment phase yields no available candidate (and the
start code itself is unavailable, so the fallback is reached), the method
tries `.copy`, `.copy2`, ..., `.copy99` appended to the original start code,
returns the first available one, and raises once all 99 are exhausted. -/
theorem search_new_account_code_fallback
    (isUsed : Code → Bool) (cacheOpt : Option (List Code)) (startCode : Code)
    (hstart : codeIsAvailable isUsed (cacheOpt.getD [startCode]) startCode = false)
    (hdigits : ∀ c ∈ digitCandidates startCode,
      codeIsAvailable isUsed (cacheOpt.getD [startCode]) c = false) :
    (∀ k, k < 99 →
      codeIsAvailable isUsed (cacheOpt.getD [startCode]) (startCode ++ copySuffix k) = true →
      (∀ j, j < k →
        codeIsAvailable isUsed (cacheOpt.getD [startCode]) (startCode ++ copySuffix j) = false) →
      search_new_account_code isUsed cacheOpt startCode = .ok (startCode ++ copySuffix k)) ∧
    ((∀ k, k < 99 →
        codeIsAvailable isUsed (cacheOpt.getD [startCode]) (startCode ++ copySuffix k) = false) →
      search_new_account_code isUsed cacheOpt startCode =
        .error (.userError "Cannot generate an unused account code.")) := by
  have hdig_none : (digitCandidates startCode).find?
      (codeIsAvailable isUsed (cacheOpt.getD [startCode])) = none :=
    List.find?_eq_none.mpr (fun c hc => by rw [hdigits c hc]; simp)
  constructor
  · intro k hk hpk hmin
    have hfind : (copyCandidates startCode).find?
        (codeIsAvailable isUsed (cacheOpt.getD [startCode]))
        = some (startCode ++ copySuffix k) := by
      unfold copyCandidates
      rw [List.range_eq_range' 99]
      have := find?_map_range'_eq_some
        (codeIsAvailable isUsed (cacheOpt.getD [startCode]))
        (fun num => startCode ++ copySuffix num) 0 99 k hk
        (by simpa using hpk) (fun j hj => by simpa using hmin j hj)
      simpa using this
    unfold search_new_account_code
    rw [if_neg (by rw [hstart]; simp), hdig_none, hfind]
  · intro hall
    have hfind : (copyCandidates startCode).find?
        (codeIsAvailable isUsed (cacheOpt.getD [startCode])) = none :=
      List.find?_eq_none.mpr (fun c hc => by
        obtain ⟨k, hk, rfl⟩ := mem_copyCandidates hc
        rw [hall k hk]; simp)
    unfold search_new_account_code
    rw [if_neg (by rw [hstart]; simp), hdig_none, hfind]

/-- Closed instantiation of the C5 theorem: `hello` is used, has no digit
run, and `hello.copy` is free, so `hello.copy` is returned. -/
theorem search_new_account_code_fallback_witness :
    search_new_account_code (fun c => decide (c = "hello".toList)) none "hello".toList
      = .ok ("hello".toList ++ copySuffix 0) :=
  (search_new_account_code_fallback (fun c => decide (c = "hello".toList)) none
      "hello".toList (by decide) (by decide)).1
    0 (by decide) (by decide) (fun j hj => by omega)

/-! ### PrefixHierarchyResolver: `AccountGroup._adapt_parent_account_group` -/

/-- Lexicographic comparison of character lists, embedding the SQL string
comparison `<=` used on `code_prefix_start` / `code_prefix_end`. -/
def lexLe : List Char → List Char → Bool
  | [], _ => true
  | _ :: _, [] => false
  | a :: as, b :: bs => if a = b then lexLe as bs else decide (a < b)

/-- A record of the `account.group` model: prefix range, company and current
parent link. -/
structure AccountGroup where
  id : Nat
  prefixStart : List Char
  prefixEnd : List Char
  companyId : Nat
  parentId : Option Nat
deriving DecidableEq, Repr

/-- The join condition of the `relation` CTE in
`_adapt_parent_account_group`: `parent` is an eligible parent of `child`. -/
def eligibleParent (parent child : AccountGroup) : Bool :=
  decide (parent.prefixStart.length < child.prefixStart.length) &&
  lexLe parent.prefixStart (child.prefixStart.take parent.prefixStart.length) &&
  lexLe (child.prefixEnd.take parent.prefixEnd.length) parent.prefixEnd &&
  decide (parent.id ≠ child.id) &&
  decide (parent.companyId = child.companyId)

/-- The `SELECT DISTINCT ON (child.id) ... ORDER BY child.id,
char_length(parent.code_prefix_start) DESC` pick: the first row of maximal
start-length.  PostgreSQL leaves ties in that ORDER BY unspecified; the
model resolves them by table order, which none of the theorems below rely
on (their instances are tie-free). -/
def pickParent (cands : List AccountGroup) : Option AccountGroup :=
  cands.foldl
    (fun best p =>
      match best with
      | none => some p
      | some b => if b.prefixStart.length < p.prefixStart.length then some p else best)
    none

/-- Shallow embedding of `AccountGroup._adapt_parent_account_group`: the
`relation` CTE (note the `child.parent_id IS DISTINCT FROM parent.id` filter
applied before `DISTINCT ON`), the `UPDATE ... FROM relation` and the
`RETURNING child.id` rows.  `delaySync` models the
`delay_account_group_sync` context flag. -/
def adapt_parent_account_group (delaySync : Bool) (companyIds : List Nat)
    (groups : List AccountGroup) : List AccountGroup × List Nat :=
  if delaySync then (groups, [])
  else if companyIds = [] then (groups, [])
  else
    ((groups.map (fun g =>
        match ((groups.filterMap (fun child =>
          if child.companyId ∈ companyIds then
            (pickParent (groups.filter (fun parent =>
                eligibleParent parent child && decide (child.parentId ≠ some parent.id)))).map
              (fun parent => (child.id, parent.id))
          else none)).lookup g.id) with
        | some pid => { g with parentId := some pid }
        | none => g)),
     (groups.filterMap (fun child =>
        if child.companyId ∈ companyIds then
          (pickParent (groups.filter (fun parent =>
              eligibleParent parent child && decide (child.parentId ≠ some parent.id)))).map
            (fun parent => (child.id, parent.id))
        else none)).map (fun r => r.1))

/-- The three groups of the C6/C7 instances: `A = 1`, `B = 10-10`,
`C = 101-101`, one company.  `B` is the most specific eligible parent of
`C`, and `A` is also eligible. -/
def groupA : AccountGroup := { id := 1, prefixStart := ['1'], prefixEnd := ['1'], companyId := 7, parentId := none }

/-- AccountGroup `B = 10-10` with its correct parent `A` already set. -/
def groupB : AccountGroup := { id := 2, prefixStart := ['1', '0'], prefixEnd := ['1', '0'], companyId := 7, parentId := some 1 }

/-- AccountGroup `C = 101-101` with its correct, most specific parent `B` already
set. -/
def groupC : AccountGroup := { id := 3, prefixStart := ['1', '0', '1'], prefixEnd := ['1', '0', '1'], companyId := 7, parentId := some 2 }

/-- AccountGroup `C = 101-101` with the less specific parent `A` set. -/
def groupC' : AccountGroup := { id := 3, prefixStart := ['1', '0', '1'], prefixEnd := ['1', '0', '1'], companyId := 7, parentId := some 1 }

/-- C6 (code_bug evidence): on a state where every parent link is already
the most specific eligible parent, `_adapt_parent_account_group` rewrites
`C`'s parent from `B` (start length 2, the unique most specific eligible
parent) to the less specific `A` (start length 1), because the
`child.parent_id IS DISTINCT FROM parent.id` filter removes the best row
before `DISTINCT ON` picks.  This contradicts the claimed postcondition. -/
theorem adapt_parent_account_group_not_most_specific :
    eligibleParent groupB groupC = true ∧
    eligibleParent groupA groupC = true ∧
    groupB.prefixStart.length > groupA.prefixStart.length ∧
    (adapt_parent_account_group false [7] [groupA, groupB, groupC]).1 =
      [groupA, groupB, groupC'] := by
  refine ⟨by decide, by decide, by decide, by decide⟩

/-- C7 (code_bug evidence): starting from `C.parent = A`, the first run
rewrites `C.parent` to `B`; the second run, with no intervening range
change, writes again (rewriting `C.parent` back to `A`), so the resolver is
not idempotent. -/
theorem adapt_parent_account_group_not_idempotent :
    (adapt_parent_account_group false [7] [groupA, groupB, groupC']).1 =
      [groupA, groupB, groupC] ∧
    (adapt_parent_account_group false [7]
        (adapt_parent_account_group false [7] [groupA, groupB, groupC']).1).2 ≠ [] ∧
    (adapt_parent_account_group false [7]
        (adapt_parent_account_group false [7] [groupA, groupB, groupC']).1).1 ≠
      (adapt_parent_account_group false [7] [groupA, groupB, groupC']).1 := by
  refine ⟨by decide, by decide, by decide⟩

/-! ### MergeCoordinator validation: `AccountAccount._check_action_merge_possible` -/

/-- A record of the `account.account` model with the fields the merge
protocol reads.  `codes` is the company-scoped `code` mapping (one
`ir.property` value per company). -/
structure Account where
  id : Nat
  companyIds : List Nat
  codes : List (Nat × String)
  currencyId : Option Nat
  deprecated : Bool
  accountType : String
  reconcile : Bool
  nonTrade : Bool
  taxIds : List Nat
deriving DecidableEq, Repr

instance : Inhabited Account :=
  ⟨{ id := 0, companyIds := [], codes := [], currencyId := none, deprecated := false,
     accountType := "", reconcile := false, nonTrade := false, taxIds := [] }⟩

/-- The company-scoped code `account.with_company(company).code` (empty when
unset, which is falsy in Python). -/
def codeIn (a : Account) (c : Nat) : String := (a.codes.lookup c).getD ""

/-- First-occurrence deduplication keeping order, as Python sets and dict
keys behave under insertion. -/
def dedupKeepFirst {α} [DecidableEq α] (seen : List α) : List α → List α
  | [] => []
  | x :: xs =>
    if x ∈ seen then dedupKeepFirst seen xs else x :: dedupKeepFirst (x :: seen) xs

/-- True when all records agree on the value of `f`
(`len(set(self.mapped(field))) > 1` is false for a value field). -/
def allEqBy {α} [DecidableEq α] (accounts : List Account) (f : Account → α) : Bool :=
  match accounts with
  | [] => true
  | x :: xs => xs.all (fun y => decide (f y = f x))

/-- The five-field equality gate of `_check_action_merge_possible`.  For the
many2one `currency_id`, `self.mapped('currency_id')` is the recordset of
distinct currencies actually set, so accounts without a currency contribute
nothing to it. -/
def equalityChecksPass (accounts : List Account) : Bool :=
  decide ((dedupKeepFirst [] (accounts.filterMap (fun a => a.currencyId))).length ≤ 1) &&
  allEqBy accounts (fun a => a.deprecated) &&
  allEqBy accounts (fun a => a.accountType) &&
  allEqBy accounts (fun a => a.reconcile) &&
  allEqBy accounts (fun a => a.nonTrade)

/-- External facts the validation reads from the ledger subsystem: whether an
account holds posted entries with an `inalterable_hash`, the per-company
user lock date (`max(user_fiscalyear_lock_date, user_hard_lock_date)`,
`none` when falsy), and whether an account holds posted entries in a company
dated on or before that company's lock date. -/
structure MergeEnv where
  hashed : Nat → Bool
  lockDate : Nat → Option Nat
  locked : Nat → Nat → Bool

/-- The seed of `code_by_company` in the one-hashed-account case:
`{company: survivor.with_company(company).code for company in
survivor.company_ids}`. -/
def hashSeed (h : Account) : List (Nat × String) :=
  h.companyIds.map (fun c => (c, codeIn h c))

/-- The keys of `accounts_by_company` in Python dict insertion order:
companies in order of first appearance over the accounts in input order. -/
def companiesInOrder (accounts : List Account) : List Nat :=
  dedupKeepFirst [] (accounts.map (fun a => a.companyIds)).flatten

/-- The recordset `accounts_by_company[comp]`: the input accounts belonging
to `comp`, in input order. -/
def accountsOf (accounts : List Account) (comp : Nat) : List Account :=
  accounts.filter (fun a => a.companyIds.contains comp)

/-- The recordset `locked_accounts` for a company: accounts of the company
holding posted entries dated on or before its lock date. -/
def lockedAccountsOf (env : MergeEnv) (accounts : List Account) (comp : Nat) : List Account :=
  (accountsOf accounts comp).filter (fun a => env.locked a.id comp)

/-- Overwrite the binding of company `c` in the `code_by_company` dict (only
`lookup` is ever read from this association list). -/
def setCode (m : List (Nat × String)) (c : Nat) (v : String) : List (Nat × String) :=
  (c, v) :: m.filter (fun p => p.1 ≠ c)

/-- The per-company lock-date loop of `_check_action_merge_possible`
(`for company, accounts in accounts_by_company.items(): ...`), mutating
`code_by_company`.  `survivorOpt` is `account_to_merge_into` as determined by
the hashed-entry partition (`none` for Python `None`, against which the
recordset comparison `locked_accounts != account_to_merge_into` is always
true). -/
def lockLoop (env : MergeEnv) (accounts : List Account) (survivorOpt : Option Account) :
    List Nat → List (Nat × String) → Except OdooError (List (Nat × String))
  | [], m => .ok m
  | comp :: rest, m =>
    if 1 < (accountsOf accounts comp).length && (env.lockDate comp).isSome then
      if lockedAccountsOf env accounts comp = [] then
        lockLoop env accounts survivorOpt rest m
      else if (m.lookup comp).isSome &&
          (match survivorOpt with
           | some h => decide (lockedAccountsOf env accounts comp ≠ [h])
           | none => true) then
        .error (.userError "cannot merge an account that contains hashed entries with accounts that contain locked entries")
      else if (lockedAccountsOf env accounts comp).length = 1 then
        lockLoop env accounts survivorOpt rest
          (setCode m comp (codeIn (lockedAccountsOf env accounts comp).headI comp))
      else
        .error (.userError "cannot merge accounts that both contain locked entries")
    else
      lockLoop env accounts survivorOpt rest
        (setCode m comp (codeIn (accountsOf accounts comp).headI comp))

/-- Shallow embedding of `AccountAccount._check_action_merge_possible`: the
minimum-size check, the five-field equality gate, the hashed-entry
partition (0 hashed: survivor undetermined and empty seed; 1 hashed: that
account with its codes as seed; 2 or more: `UserError`), the per-company
lock-date loop, and the final `account_to_merge_into or self[0]`. -/
def check_action_merge_possible (env : MergeEnv) (accounts : List Account) :
    Except OdooError (Account × List (Nat × String)) :=
  if accounts.length < 2 then
    .error (.userError "You must select at least 2 accounts to merge.")
  else if !equalityChecksPass accounts then
    .error (.userError "You may only merge accounts that have the same account type, currency, deprecated status, reconciliation status, and trade/non-trade receivable status.")
  else
    match accounts.filter (fun a => env.hashed a.id) with
    | [] =>
      match lockLoop env accounts none (companiesInOrder accounts) [] with
      | .ok m => .ok (accounts.headI, m)
      | .error e => .error e
    | [h] =>
      match lockLoop env accounts (some h) (companiesInOrder accounts) (hashSeed h) with
      | .ok m => .ok (h, m)
      | .error e => .error e
    | _ => .error (.userError "Accounts contain hashed entries, so cannot be merged.")

theorem dedupKeepFirst_mem {α} [DecidableEq α] (seen l : List α) (x : α) :
    x ∈ dedupKeepFirst seen l ↔ x ∈ l ∧ x ∉ seen := by
  induction l generalizing seen with
  | nil => simp [dedupKeepFirst]
  | cons y ys ih =>
    rw [dedupKeepFirst]
    by_cases hy : y ∈ seen
    · rw [if_pos hy, ih]
      constructor
      · rintro ⟨hm, hs⟩
        exact ⟨List.mem_cons_of_mem _ hm, hs⟩
      · rintro ⟨hm, hs⟩
        by_cases hxy : x = y
        · subst hxy; exact absurd hy hs
        · exact ⟨(List.mem_cons.mp hm).resolve_left hxy, hs⟩
    · rw [if_neg hy, List.mem_cons, ih]
      constructor
      · rintro (rfl | ⟨hm, hs⟩)
        · exact ⟨List.mem_cons_self _ _, hy⟩
        · exact ⟨List.mem_cons_of_mem _ hm, fun hx => hs (List.mem_cons_of_mem _ hx)⟩
      · rintro ⟨hm, hs⟩
        by_cases hxy : x = y
        · exact Or.inl hxy
        · refine Or.inr ⟨(List.mem_cons.mp hm).resolve_left hxy, fun hx => ?_⟩
          rcases List.mem_cons.mp hx with h1 | h2
          · exact hxy h1
          · exact hs h2

theorem dedupKeepFirst_nodup {α} [DecidableEq α] (seen l : List α) :
    (dedupKeepFirst seen l).Nodup := by
  induction l generalizing seen with
  | nil => simp [dedupKeepFirst]
  | cons y ys ih =>
    rw [dedupKeepFirst]
    by_cases hy : y ∈ seen
    · rw [if_pos hy]; exact ih seen
    · rw [if_neg hy, List.nodup_cons]
      refine ⟨fun hmem => ?_, ih (y :: seen)⟩
      rw [dedupKeepFirst_mem] at hmem
      exact hmem.2 (List.mem_cons_self _ _)

theorem lookup_map_pair {α β} [DecidableEq α] (f : α → β) (l : List α) (c : α) (hc : c ∈ l) :
    (l.map (fun x => (x, f x))).lookup c = some (f c) := by
  induction l with
  | nil => cases hc
  | cons x xs ih =>
    rw [List.map_cons]
    by_cases hx : c = x
    · subst hx
      simp [List.lookup]
    · have hc' : c ∈ xs := (List.mem_cons.mp hc).resolve_left hx
      simp [List.lookup, beq_eq_false_iff_ne.mpr hx, ih hc']

theorem lookup_filter_ne (m : List (Nat × String)) (c comp : Nat) (h : comp ≠ c) :
    (m.filter (fun p => decide (p.1 ≠ c))).lookup comp = m.lookup comp := by
  induction m with
  | nil => rfl
  | cons p rest ih =>
    by_cases hpc : p.1 = c
    · rw [List.filter_cons_of_neg (by simp [hpc])]
      rw [ih]
      cases p with
      | mk k v =>
        simp only at hpc
        subst hpc
        simp [List.lookup, beq_eq_false_iff_ne.mpr h]
    · rw [List.filter_cons_of_pos (by simp [hpc])]
      cases p with
      | mk k v =>
        by_cases hck : comp = k
        · subst hck; simp [List.lookup]
        · have hbeq : (comp == k) = false := beq_eq_false_iff_ne.mpr hck
          simp only [List.lookup, hbeq]
          exact ih

theorem lookup_setCode_ne (m : List (Nat × String)) (c comp : Nat) (v : String)
    (h : c ≠ comp) :
    (setCode m c v).lookup comp = m.lookup comp := by
  have h' : comp ≠ c := fun hh => h hh.symm
  unfold setCode
  have hhead : (List.lookup comp ((c, v) :: m.filter (fun p => decide (p.1 ≠ c)))) =
      List.lookup comp (m.filter (fun p => decide (p.1 ≠ c))) := by
    simp [List.lookup, beq_eq_false_iff_ne.mpr h']
  rw [hhead]
  exact lookup_filter_ne m c comp h'

theorem lockLoop_lookup_of_not_mem (env : MergeEnv) (accounts : List Account)
    (survivorOpt : Option Account) (comp : Nat) :
    ∀ (l : List Nat) (m m' : List (Nat × String)),
      lockLoop env accounts survivorOpt l m = .ok m' → comp ∉ l →
      m'.lookup comp = m.lookup comp := by
  intro l
  induction l with
  | nil =>
    intro m m' hok _
    cases hok
    rfl
  | cons c rest ih =>
    intro m m' hok hnm
    have hc : c ≠ comp := fun hh => hnm (hh ▸ List.mem_cons_self _ _)
    have hrest : comp ∉ rest := fun hh => hnm (List.mem_cons_of_mem _ hh)
    simp only [lockLoop] at hok
    split at hok
    · split at hok
      · exact ih m m' hok hrest
      · split at hok
        · cases hok
        · split at hok
          · rw [ih _ m' hok hrest, lookup_setCode_ne _ _ _ _ hc]
          · cases hok
    · rw [ih _ m' hok hrest, lookup_setCode_ne _ _ _ _ hc]

theorem lockLoop_lookup_unlocked (env : MergeEnv) (accounts : List Account)
    (survivorOpt : Option Account) (comp : Nat)
    (hshared : 1 < (accountsOf accounts comp).length)
    (hlock : (env.lockDate comp).isSome = true)
    (hnone : ∀ a ∈ accountsOf accounts comp, env.locked a.id comp = false) :
    ∀ (l : List Nat) (m m' : List (Nat × String)),
      lockLoop env accounts survivorOpt l m = .ok m' → comp ∈ l → l.Nodup →
      m'.lookup comp = m.lookup comp := by
  intro l
  induction l with
  | nil => intro m m' _ hmem _; cases hmem
  | cons c rest ih =>
    intro m m' hok hmem hnd
    rw [List.nodup_cons] at hnd
    by_cases hc : c = comp
    · subst hc
      simp only [lockLoop] at hok
      rw [if_pos (by simp [hshared, hlock])] at hok
      have hempty : lockedAccountsOf env accounts c = [] := by
        unfold lockedAccountsOf
        exact List.filter_eq_nil_iff.mpr (fun a ha => by simp [hnone a ha])
      rw [if_pos hempty] at hok
      exact lockLoop_lookup_of_not_mem env accounts survivorOpt c rest m m' hok hnd.1
    · have hmem' : comp ∈ rest := (List.mem_cons.mp hmem).resolve_left (fun hh => hc hh.symm)
      simp only [lockLoop] at hok
      split at hok
      · split at hok
        · exact ih m m' hok hmem' hnd.2
        · split at hok
          · cases hok
          · split at hok
            · rw [ih _ m' hok hmem' hnd.2, lookup_setCode_ne _ _ _ _ hc]
            · cases hok
      · rw [ih _ m' hok hmem' hnd.2, lookup_setCode_ne _ _ _ _ hc]

theorem check_ok_cases (env : MergeEnv) (accounts : List Account) (r : Account)
    (m : List (Nat × String))
    (hok : check_action_merge_possible env accounts = .ok (r, m)) :
    r = (match accounts.filter (fun a => env.hashed a.id) with
         | [h] => h
         | _ => accounts.headI) ∧
    lockLoop env accounts
        (match accounts.filter (fun a => env.hashed a.id) with
         | [h] => some h
         | _ => none)
        (companiesInOrder accounts)
        (match accounts.filter (fun a => env.hashed a.id) with
         | [h] => hashSeed h
         | _ => ([] : List (Nat × String))) = .ok m := by
  unfold check_action_merge_possible at hok
  split at hok
  · cases hok
  split at hok
  · cases hok
  rcases hfl : accounts.filter (fun a => env.hashed a.id) with _ | ⟨a, _ | ⟨b, t⟩⟩ <;>
    rw [hfl] at hok ⊢ <;> dsimp only at hok ⊢
  · split at hok
    · rename_i m1 hloop
      cases hok
      exact ⟨rfl, hloop⟩
    · cases hok
  · split at hok
    · rename_i m1 hloop
      cases hok
      exact ⟨rfl, hloop⟩
    · cases hok
  · cases hok

/-- C1: past the size and equality gates, when exactly one input account
holds posted entries with an immutability hash, that account is the one
returned as survivor and the `code_by_company` seed maps each of its
companies to its company-scoped code; two or more hashed accounts make the
validation raise a `UserError`; and any returned survivor is the hash-determined account
when there is exactly one, and otherwise the first account in input order. -/
theorem check_merge_hash_survivor (env : MergeEnv) (accounts : List Account) :
    (∀ h, accounts.filter (fun a => env.hashed a.id) = [h] →
      (∀ c ∈ h.companyIds, (hashSeed h).lookup c = some (codeIn h c)) ∧
      (∀ r m, check_action_merge_possible env accounts = .ok (r, m) → r = h)) ∧
    (2 ≤ (accounts.filter (fun a => env.hashed a.id)).length →
      ∃ msg, check_action_merge_possible env accounts = .error (.userError msg)) ∧
    (∀ r m, check_action_merge_possible env accounts = .ok (r, m) →
      r = (match accounts.filter (fun a => env.hashed a.id) with
           | [h] => h
           | _ => accounts.headI)) := by
  refine ⟨?_, ?_, ?_⟩
  · intro h hf
    refine ⟨fun c hc => lookup_map_pair (fun c => codeIn h c) h.companyIds c hc, ?_⟩
    intro r m hok
    have h3 := (check_ok_cases env accounts r m hok).1
    rw [hf] at h3
    exact h3
  · intro hlen2
    unfold check_action_merge_possible
    split
    · exact ⟨_, rfl⟩
    · split
      · exact ⟨_, rfl⟩
      · rcases hfl : accounts.filter (fun a => env.hashed a.id) with _ | ⟨a, _ | ⟨b, t⟩⟩
        · rw [hfl] at hlen2; simp at hlen2
        · rw [hfl] at hlen2; simp at hlen2
        · rw [hfl]
          exact ⟨_, rfl⟩
  · intro r m hok
    exact (check_ok_cases env accounts r m hok).1

/-- The first account of the C1 witness instance: no hashed entries,
company 1, code 100. -/
def accW1 : Account :=
  { id := 1, companyIds := [1], codes := [(1, "100")], currencyId := none,
    deprecated := false, accountType := "asset_current", reconcile := false,
    nonTrade := false, taxIds := [] }

/-- The second account of the C1 witness instance: hashed entries, company
2, code 201. -/
def accW2 : Account :=
  { id := 2, companyIds := [2], codes := [(2, "201")], currencyId := none,
    deprecated := false, accountType := "asset_current", reconcile := false,
    nonTrade := false, taxIds := [] }

/-- The environment of the C1 witness instance: only account 2 holds hashed
entries, no lock dates. -/
def envW : MergeEnv :=
  { hashed := fun i => decide (i = 2), lockDate := fun _ => none, locked := fun _ _ => false }

/-- Closed instantiation of the C1 theorem at a two-account input whose
second account holds hashed entries: the seed carries its code and the
survivor is that account. -/
theorem check_merge_hash_survivor_witness :
    (hashSeed accW2).lookup 2 = some (codeIn accW2 2) ∧ accW2 = accW2 := by
  have h := check_merge_hash_survivor envW [accW1, accW2]
  refine ⟨(h.1 accW2 (by decide)).1 2 (by decide), ?_⟩
  exact (h.1 accW2 (by decide)).2 accW2 [(2, "201"), (1, "100")] (by rfl)

/-- The first account of the C3 instances: company 1, code 100. -/
def accC3A : Account :=
  { id := 1, companyIds := [1], codes := [(1, "100")], currencyId := none,
    deprecated := false, accountType := "asset_current", reconcile := false,
    nonTrade := false, taxIds := [] }

/-- The second account of the C3 instances: company 1, code 200. -/
def accC3B : Account :=
  { id := 2, companyIds := [1], codes := [(1, "200")], currencyId := none,
    deprecated := false, accountType := "asset_current", reconcile := false,
    nonTrade := false, taxIds := [] }

/-- Environment of the C3 counterexample: company 1 has a lock date, no
account holds hashed or locked entries. -/
def envC3 : MergeEnv :=
  { hashed := fun _ => false, lockDate := fun _ => some 5, locked := fun _ _ => false }

/-- C3 counterexample: company 1 is shared by both input accounts and has a
lock date, no input account is locked in it, and the validation succeeds —
yet the returned `code_by_company` is empty: it has no entry for company 1
at all (the zero-locked branch is `pass`), rather than the first input
account's code `100` required by the claim. -/
theorem check_merge_lock_none_counterexample :
    check_action_merge_possible envC3 [accC3A, accC3B] = .ok (accC3A, []) ∧
    (accountsOf [accC3A, accC3B] 1).length = 2 ∧
    (envC3.lockDate 1).isSome = true ∧
    (accountsOf [accC3A, accC3B] 1).all (fun a => !envC3.locked a.id 1) = true ∧
    codeIn accC3A 1 = "100" ∧
    ([] : List (Nat × String)).lookup 1 = (none : Option String) := by
  exact ⟨by rfl, by rfl, by rfl, by rfl, by rfl, by rfl⟩

/-- C3 corrected: for a company shared by at least two input accounts with
a lock date and no locked account among them, the loop leaves
`code_by_company` untouched at that company, so the returned map agrees
there with the hashed-survivor seed: the hashed survivor's code when the
company is among its companies, and no entry at all otherwise — not the
first input account's code. -/
theorem check_merge_lock_none_amended (env : MergeEnv) (accounts : List Account)
    (comp : Nat) (r : Account) (m : List (Nat × String))
    (hok : check_action_merge_possible env accounts = .ok (r, m))
    (hshared : 1 < (accountsOf accounts comp).length)
    (hlock : (env.lockDate comp).isSome = true)
    (hnone : ∀ a ∈ accountsOf accounts comp, env.locked a.id comp = false) :
    m.lookup comp =
      List.lookup comp
        (match accounts.filter (fun a => env.hashed a.id) with
         | [h] => hashSeed h
         | _ => ([] : List (Nat × String))) := by
  have hcm : comp ∈ companiesInOrder accounts := by
    have hpos : 0 < (accountsOf accounts comp).length := by omega
    obtain ⟨a, ha⟩ := List.exists_mem_of_length_pos hpos
    have hmem := List.mem_filter.mp ha
    rw [companiesInOrder, dedupKeepFirst_mem]
    refine ⟨?_, by simp⟩
    rw [List.mem_flatten]
    refine ⟨a.companyIds, List.mem_map.mpr ⟨a, hmem.1, rfl⟩, ?_⟩
    have := hmem.2
    simpa using this
  have hloop := (check_ok_cases env accounts r m hok).2
  rcases hfl : accounts.filter (fun a => env.hashed a.id) with _ | ⟨a, _ | ⟨b, t⟩⟩ <;>
    rw [hfl] at hloop ⊢ <;> dsimp only at hloop ⊢
  · exact lockLoop_lookup_unlocked env accounts none comp hshared hlock hnone
      (companiesInOrder accounts) [] m hloop hcm (dedupKeepFirst_nodup _ _)
  · exact lockLoop_lookup_unlocked env accounts (some a) comp hshared hlock hnone
      (companiesInOrder accounts) (hashSeed a) m hloop hcm (dedupKeepFirst_nodup _ _)
  · exact lockLoop_lookup_unlocked env accounts none comp hshared hlock hnone
      (companiesInOrder accounts) [] m hloop hcm (dedupKeepFirst_nodup _ _)

/-- The first account of the C3 amended-theorem witness: hashed, company 1,
code 100. -/
def accW3A : Account :=
  { id := 1, companyIds := [1], codes := [(1, "100")], currencyId := none,
    deprecated := false, accountType := "asset_current", reconcile := false,
    nonTrade := false, taxIds := [] }

/-- The second account of the C3 amended-theorem witness: company 1, code
200. -/
def accW3B : Account :=
  { id := 2, companyIds := [1], codes := [(1, "200")], currencyId := none,
    deprecated := false, accountType := "asset_current", reconcile := false,
    nonTrade := false, taxIds := [] }

/-- Environment of the C3 amended-theorem witness: account 1 holds hashed
entries, company 1 has a lock date, nothing is locked. -/
def envW3 : MergeEnv :=
  { hashed := fun i => decide (i = 1), lockDate := fun _ => some 5, locked := fun _ _ => false }

/-- Closed instantiation of the amended C3 theorem: the hashed survivor's
seed entry for the shared, locked-date company is what the returned map
holds. -/
theorem check_merge_lock_none_amended_witness :
    ([(1, "100")] : List (Nat × String)).lookup 1 = (hashSeed accW3A).lookup 1 :=
  check_merge_lock_none_amended envW3 [accW3A, accW3B] 1 accW3A [(1, "100")]
    (by rfl) (by decide) (by rfl) (by decide)

/-! ### UniquenessGuard: `AccountAccount._ensure_code_is_unique` -/

/-- Shallow embedding of `AccountAccount._ensure_code_is_unique`.  The first
check walks every account and company and requires a company-scoped code;
the duplicate checks then work on `record.code` for the *current
environment company* only: the in-set check compares the number of distinct
such codes (`grouped('code')`) with the number of accounts carrying one,
and the store check (`search_fetch` over `db`) looks for other accounts
whose environment-company code is among the checked distinct codes. -/
def ensure_code_is_unique (db : List Account) (envCompany : Nat) (accounts : List Account) :
    Except OdooError Unit :=
  if accounts.any (fun a => a.companyIds.any (fun c => codeIn a c = "")) then
    .error (.validationError "The code must be set for every company to which this account belongs.")
  else if (dedupKeepFirst [] ((accounts.filter (fun a => codeIn a envCompany ≠ "")).map
      (fun a => codeIn a envCompany))).length <
      ((accounts.filter (fun a => codeIn a envCompany ≠ "")).map
        (fun a => codeIn a envCompany)).length then
    .error (.validationError "Account codes must be unique (duplicates among the checked accounts).")
  else if (db.filter (fun b => accounts.all (fun a => a.id ≠ b.id) &&
      (dedupKeepFirst [] ((accounts.filter (fun a => codeIn a envCompany ≠ "")).map
        (fun a => codeIn a envCompany))).contains (codeIn b envCompany))) ≠ [] then
    .error (.validationError "Account codes must be unique (duplicate of an existing account code).")
  else .ok ()

theorem dedupKeepFirst_length_le {α} [DecidableEq α] (seen l : List α) :
    (dedupKeepFirst seen l).length ≤ l.length := by
  induction l generalizing seen with
  | nil => simp [dedupKeepFirst]
  | cons y ys ih =>
    rw [dedupKeepFirst]
    split
    · exact Nat.le_succ_of_le (ih seen)
    · simpa using ih (y :: seen)

theorem dedupKeepFirst_length_lt_of_mem_seen {α} [DecidableEq α] (seen l : List α) (x : α)
    (hx : x ∈ l) (hs : x ∈ seen) : (dedupKeepFirst seen l).length < l.length := by
  induction l generalizing seen with
  | nil => cases hx
  | cons y ys ih =>
    rw [dedupKeepFirst]
    split
    · have hle := dedupKeepFirst_length_le seen ys
      rw [List.length_cons]
      omega
    · rename_i hy
      rcases List.mem_cons.mp hx with rfl | hx'
      · exact absurd hs hy
      · have := ih (y :: seen) hx' (List.mem_cons_of_mem _ hs)
        rw [List.length_cons, List.length_cons]
        omega

theorem dedupKeepFirst_length_eq_imp {α} [DecidableEq α] (seen l : List α)
    (h : (dedupKeepFirst seen l).length = l.length) : l.Nodup := by
  induction l generalizing seen with
  | nil => simp
  | cons y ys ih =>
    rw [dedupKeepFirst] at h
    split at h
    · have := dedupKeepFirst_length_le seen ys
      rw [List.length_cons] at h
      omega
    · rename_i hy
      rw [List.length_cons, List.length_cons] at h
      rw [List.nodup_cons]
      refine ⟨fun hmem => ?_, ih (y :: seen) (by omega)⟩
      have := dedupKeepFirst_length_lt_of_mem_seen (y :: seen) ys y hmem
        (List.mem_cons_self _ _)
      omega

theorem dedupKeepFirst_eq_self {α} [DecidableEq α] (seen l : List α)
    (hnd : l.Nodup) (hdisj : ∀ x ∈ l, x ∉ seen) : dedupKeepFirst seen l = l := by
  induction l generalizing seen with
  | nil => rfl
  | cons y ys ih =>
    rw [dedupKeepFirst, if_neg (hdisj y (List.mem_cons_self _ _))]
    rw [List.nodup_cons] at hnd
    congr 1
    refine ih (y :: seen) hnd.2 (fun x hx hmem => ?_)
    rcases List.mem_cons.mp hmem with rfl | hseen
    · exact hnd.1 hx
    · exact hdisj x (List.mem_cons_of_mem _ hx) hseen

/-- The first account of the C8 counterexample: companies 1 and 2, distinct
code in company 1, code 600000 in company 2. -/
def accC8A : Account :=
  { id := 1, companyIds := [1, 2], codes := [(1, "100"), (2, "600000")], currencyId := none,
    deprecated := false, accountType := "asset_current", reconcile := false,
    nonTrade := false, taxIds := [] }

/-- The second account of the C8 counterexample: companies 1 and 2, distinct
code in company 1, the same code 600000 in company 2. -/
def accC8B : Account :=
  { id := 2, companyIds := [1, 2], codes := [(1, "200"), (2, "600000")], currencyId := none,
    deprecated := false, accountType := "asset_current", reconcile := false,
    nonTrade := false, taxIds := [] }

/-- C8 counterexample: the two accounts share company 2 and both carry the
code 600000 there, yet the guard run under environment company 1 accepts
them — duplicates are only detected through the environment company's
codes. -/
theorem ensure_code_is_unique_counterexample :
    ensure_code_is_unique [] 1 [accC8A, accC8B] = .ok () ∧
    accC8A.companyIds.contains 2 = true ∧
    accC8B.companyIds.contains 2 = true ∧
    codeIn accC8A 2 = codeIn accC8B 2 ∧
    codeIn accC8A 2 = "600000" ∧
    accC8A ≠ accC8B := by
  exact ⟨by rfl, by rfl, by rfl, by rfl, by rfl, by decide⟩

/-- C8 corrected: the guard raises `ValidationError` when a checked account
lacks a code for one of its companies, when two distinct checked accounts
carry the same non-empty code for the *environment* company, and when a
stored account outside the checked set carries the same non-empty
environment-company code as a checked account; equal codes confined to
another company are not detected.  It accepts the set when no code is
missing, the environment-company codes are pairwise distinct, and no stored
account outside the set conflicts on them. -/
theorem ensure_code_is_unique_amended (db : List Account) (envCompany : Nat)
    (accounts : List Account) :
    ((∃ a ∈ accounts, ∃ c ∈ a.companyIds, codeIn a c = "") →
      ∃ msg, ensure_code_is_unique db envCompany accounts = .error (.validationError msg)) ∧
    (∀ A B, A ∈ accounts → B ∈ accounts → A ≠ B →
      codeIn A envCompany = codeIn B envCompany → codeIn A envCompany ≠ "" →
      ∃ msg, ensure_code_is_unique db envCompany accounts = .error (.validationError msg)) ∧
    (∀ b A, b ∈ db → A ∈ accounts → (∀ a ∈ accounts, a.id ≠ b.id) →
      codeIn b envCompany = codeIn A envCompany → codeIn A envCompany ≠ "" →
      ∃ msg, ensure_code_is_unique db envCompany accounts = .error (.validationError msg)) ∧
    ((∀ a ∈ accounts, ∀ c ∈ a.companyIds, codeIn a c ≠ "") →
      ((accounts.filter (fun a => codeIn a envCompany ≠ "")).map
        (fun a => codeIn a envCompany)).Nodup →
      (∀ b ∈ db, accounts.all (fun a => a.id ≠ b.id) = true →
        codeIn b envCompany ∉ (accounts.filter (fun a => codeIn a envCompany ≠ "")).map
          (fun a => codeIn a envCompany)) →
      ensure_code_is_unique db envCompany accounts = .ok ()) := by
  refine ⟨?_, ?_, ?_, ?_⟩
  · rintro ⟨a, ha, c, hc, hcode⟩
    unfold ensure_code_is_unique
    rw [if_pos (List.any_eq_true.mpr ⟨a, ha, List.any_eq_true.mpr ⟨c, hc, by simp [hcode]⟩⟩)]
    exact ⟨_, rfl⟩
  · intro A B hA hB hne hcode hnem
    unfold ensure_code_is_unique
    split
    · exact ⟨_, rfl⟩
    · rw [if_pos ?_]
      · exact ⟨_, rfl⟩
      · have hle := dedupKeepFirst_length_le ([] : List String)
          ((accounts.filter (fun a => codeIn a envCompany ≠ "")).map
            (fun a => codeIn a envCompany))
        rcases Nat.lt_or_ge (dedupKeepFirst []
            ((accounts.filter (fun a => codeIn a envCompany ≠ "")).map
              (fun a => codeIn a envCompany))).length
            (((accounts.filter (fun a => codeIn a envCompany ≠ "")).map
              (fun a => codeIn a envCompany))).length with hlt | hge
        · exact hlt
        · exfalso
          have heq : (dedupKeepFirst []
              ((accounts.filter (fun a => codeIn a envCompany ≠ "")).map
                (fun a => codeIn a envCompany))).length =
              (((accounts.filter (fun a => codeIn a envCompany ≠ "")).map
                (fun a => codeIn a envCompany))).length := by omega
          have hnd := dedupKeepFirst_length_eq_imp _ _ heq
          have hAmem : A ∈ accounts.filter (fun a => codeIn a envCompany ≠ "") :=
            List.mem_filter.mpr ⟨hA, by simp [hnem]⟩
          have hBmem : B ∈ accounts.filter (fun a => codeIn a envCompany ≠ "") :=
            List.mem_filter.mpr ⟨hB, by simp [hcode ▸ hnem]⟩
          exact hne (List.inj_on_of_nodup_map hnd hAmem hBmem hcode)
  · intro b A hb hA hids hcode hnem
    unfold ensure_code_is_unique
    split
    · exact ⟨_, rfl⟩
    · split
      · exact ⟨_, rfl⟩
      · rw [if_pos ?_]
        · exact ⟨_, rfl⟩
        · have hAmem : A ∈ accounts.filter (fun a => codeIn a envCompany ≠ "") :=
            List.mem_filter.mpr ⟨hA, by simp [hnem]⟩
          have hmemList : codeIn b envCompany ∈
              (accounts.filter (fun a => codeIn a envCompany ≠ "")).map
                (fun a => codeIn a envCompany) := by
            rw [hcode]
            exact List.mem_map.mpr ⟨A, hAmem, rfl⟩
          have hmemDkf : codeIn b envCompany ∈ dedupKeepFirst []
              ((accounts.filter (fun a => codeIn a envCompany ≠ "")).map
                (fun a => codeIn a envCompany)) :=
            (dedupKeepFirst_mem _ _ _).mpr ⟨hmemList, by simp⟩
          have hpred : (accounts.all (fun a => a.id ≠ b.id) &&
              (dedupKeepFirst [] ((accounts.filter (fun a => codeIn a envCompany ≠ "")).map
                (fun a => codeIn a envCompany))).contains (codeIn b envCompany)) = true := by
            rw [Bool.and_eq_true]
            constructor
            · rw [List.all_eq_true]
              intro a ha
              simp [hids a ha]
            · rw [List.contains_iff_exists_mem_beq]
              exact ⟨codeIn b envCompany, hmemDkf, by simp⟩
          exact List.ne_nil_of_mem (List.mem_filter.mpr ⟨hb, hpred⟩)
  · intro hnoempty hnd hdb
    unfold ensure_code_is_unique
    rw [if_neg ?_, if_neg ?_, if_neg ?_]
    · intro hne
      apply hne
      rw [List.filter_eq_nil_iff]
      intro b hb
      rw [Bool.not_eq_true, Bool.and_eq_false_iff]
      by_cases hid : accounts.all (fun a => a.id ≠ b.id) = true
      · right
        rw [← Bool.not_eq_true, List.contains_iff_exists_mem_beq]
        rintro ⟨code, hcmem, hbeq⟩
        rw [dedupKeepFirst_mem] at hcmem
        rw [beq_iff_eq] at hbeq
        exact hdb b hb hid (hbeq ▸ hcmem.1)
      · left
        exact Bool.not_eq_true _ ▸ hid
    · rw [dedupKeepFirst_eq_self [] _ hnd (by simp)]
      exact Nat.lt_irrefl _
    · rw [Bool.not_eq_true, List.any_eq_false]
      intro a ha
      rw [Bool.not_eq_true, List.any_eq_false]
      intro c hc
      simp [hnoempty a ha c hc]

/-- Closed instantiation of the amended C8 theorem: the same two accounts
are accepted because their environment-company codes differ. -/
theorem ensure_code_is_unique_amended_witness :
    ensure_code_is_unique [] 1 [accC8A, accC8B] = .ok () :=
  (ensure_code_is_unique_amended [] 1 [accC8A, accC8B]).2.2.2 (by decide) (by decide)
    (by intro b hb; exact absurd hb (List.not_mem_nil b))

/-! ### Off-balance and receivable/payable constraints:
`AccountAccount._constrains_reconcile` and `AccountAccount._check_reconcile` -/

/-- Shallow embedding of `AccountAccount._constrains_reconcile`: for each
record, an off-balance account must not be reconcilable and must carry no
taxes; violations raise `UserError`. -/
def constrains_reconcile : List Account → Except OdooError Unit
  | [] => .ok ()
  | a :: rest =>
    if a.accountType = "off_balance" then
      if a.reconcile then .error (.userError "An Off-Balance account can not be reconcilable")
      else if a.taxIds ≠ [] then .error (.userError "An Off-Balance account can not have taxes")
      else constrains_reconcile rest
    else constrains_reconcile rest

/-- Shallow embedding of `AccountAccount._check_reconcile`: a
receivable/payable account that is not reconcilable raises
`ValidationError`. -/
def check_reconcile : List Account → Except OdooError Unit
  | [] => .ok ()
  | a :: rest =>
    if (a.accountType = "asset_receivable" ∨ a.accountType = "liability_payable") ∧
        a.reconcile = false then
      .error (.validationError "You cannot have a receivable/payable account that is not reconcilable.")
    else check_reconcile rest

/-- An off-balance account with `reconcile` set, for the C9 instances. -/
def accOffRec : Account :=
  { id := 9, companyIds := [1], codes := [(1, "999")], currencyId := none,
    deprecated := false, accountType := "off_balance", reconcile := true,
    nonTrade := false, taxIds := [] }

/-- An off-balance account with `reconcile` unset and no taxes, for the C9
witness. -/
def accOffOk : Account :=
  { id := 10, companyIds := [1], codes := [(1, "998")], currencyId := none,
    deprecated := false, accountType := "off_balance", reconcile := false,
    nonTrade := false, taxIds := [] }

/-- C9 counterexample: the reconcile-on-off-balance write is rejected, but
with a `UserError`, not the `ValidationError` the claim names. -/
theorem constrains_reconcile_counterexample :
    errorOf (constrains_reconcile [accOffRec]) =
      some (.userError "An Off-Balance account can not be reconcilable") ∧
    (OdooError.userError "An Off-Balance account can not be reconcilable").isValidationError
      = false := by
  exact ⟨by rfl, by rfl⟩

/-- C9 corrected: `_constrains_reconcile` accepts exactly the account lists
whose off-balance accounts are non-reconcilable and tax-free — so no
account can end up off-balance with `reconcile` set or with taxes — but
every error it raises is a `UserError`, never a `ValidationError`. -/
theorem constrains_reconcile_amended (accounts : List Account) :
    (constrains_reconcile accounts = .ok () ↔
      ∀ a ∈ accounts, a.accountType = "off_balance" →
        a.reconcile = false ∧ a.taxIds = []) ∧
    (∀ e, constrains_reconcile accounts = .error e → ∃ msg, e = .userError msg) := by
  induction accounts with
  | nil => simp [constrains_reconcile]
  | cons a rest ih =>
    rw [constrains_reconcile]
    by_cases hoff : a.accountType = "off_balance"
    · rw [if_pos hoff]
      by_cases hrec : a.reconcile
      · rw [if_pos hrec]
        refine ⟨⟨(fun h => nomatch h), fun hall => ?_⟩, fun e he => ?_⟩
        · have := (hall a (List.mem_cons_self _ _) hoff).1
          rw [this] at hrec
          cases hrec
        · rw [Except.error.injEq] at he
          exact ⟨_, he.symm⟩
      · rw [if_neg hrec]
        by_cases htax : a.taxIds ≠ []
        · rw [if_pos htax]
          refine ⟨⟨(fun h => nomatch h), fun hall => ?_⟩, fun e he => ?_⟩
          · exact absurd (hall a (List.mem_cons_self _ _) hoff).2 htax
          · rw [Except.error.injEq] at he
            exact ⟨_, he.symm⟩
        · rw [if_neg htax]
          rw [Bool.not_eq_true] at hrec
          rw [not_not] at htax
          refine ⟨?_, ih.2⟩
          rw [ih.1]
          constructor
          · intro h b hb hboff
            rcases List.mem_cons.mp hb with rfl | hb'
            · exact ⟨hrec, htax⟩
            · exact h b hb' hboff
          · intro h b hb hboff
            exact h b (List.mem_cons_of_mem _ hb) hboff
    · rw [if_neg hoff]
      refine ⟨?_, ih.2⟩
      rw [ih.1]
      constructor
      · intro h b hb hboff
        rcases List.mem_cons.mp hb with rfl | hb'
        · exact absurd hboff hoff
        · exact h b hb' hboff
      · intro h b hb hboff
        exact h b (List.mem_cons_of_mem _ hb) hboff

/-- Closed instantiation of the amended C9 theorem: a well-formed
off-balance account passes the constraint. -/
theorem constrains_reconcile_amended_witness :
    constrains_reconcile [accOffOk] = .ok () :=
  (constrains_reconcile_amended [accOffOk]).1.mpr (by decide)

/-- C10: `_check_reconcile` accepts exactly the account lists in which every
receivable/payable account is reconcilable, and every error it raises is a
`ValidationError` — so after any successful create or write the stored
accounts satisfy the invariant. -/
theorem check_reconcile_characterisation (accounts : List Account) :
    (check_reconcile accounts = .ok () ↔
      ∀ a ∈ accounts,
        (a.accountType = "asset_receivable" ∨ a.accountType = "liability_payable") →
        a.reconcile = true) ∧
    (∀ e, check_reconcile accounts = .error e → ∃ msg, e = .validationError msg) := by
  induction accounts with
  | nil => simp [check_reconcile]
  | cons a rest ih =>
    rw [check_reconcile]
    by_cases hviol : (a.accountType = "asset_receivable" ∨
        a.accountType = "liability_payable") ∧ a.reconcile = false
    · rw [if_pos hviol]
      refine ⟨⟨(fun h => nomatch h), fun hall => ?_⟩, fun e he => ?_⟩
      · have := hall a (List.mem_cons_self _ _) hviol.1
        rw [this] at hviol
        cases hviol.2
      · rw [Except.error.injEq] at he
        exact ⟨_, he.symm⟩
    · rw [if_neg hviol]
      refine ⟨?_, ih.2⟩
      rw [ih.1]
      constructor
      · intro h b hb hbtype
        rcases List.mem_cons.mp hb with rfl | hb'
        · by_cases hrecb : b.reconcile = true
          · exact hrecb
          · exact absurd ⟨hbtype, Bool.not_eq_true _ ▸ hrecb⟩ hviol
        · exact h b hb' hbtype
      · intro h b hb hbtype
        exact h b (List.mem_cons_of_mem _ hb) hbtype

/-- A receivable account with `reconcile` set, for the C10 witness. -/
def accRecOk : Account :=
  { id := 11, companyIds := [1], codes := [(1, "400")], currencyId := none,
    deprecated := false, accountType := "asset_receivable", reconcile := true,
    nonTrade := false, taxIds := [] }

/-- Closed instantiation of the C10 theorem: a reconcilable receivable
account passes the constraint. -/
theorem check_reconcile_characterisation_witness :
    check_reconcile [accRecOk] = .ok () :=
  (check_reconcile_characterisation [accRecOk]).1.mpr (by decide)

/-! ### MergeCoordinator execution: `AccountAccount.action_merge` and
`AccountAccount._action_merge` -/

/-- A row of the store that references an account (a foreign key or a
generic/polymorphic reference), identified by `refId` and pointing at
`target`. -/
structure Reference where
  refId : Nat
  target : Nat
deriving DecidableEq, Repr

/-- The observable store state touched by a merge: the account rows and
every reference to them. -/
structure MergeState where
  accounts : List Account
  refs : List Reference
deriving DecidableEq, Repr

/-- Caller context of the merge: the `account_merge_confirm` flag of the
confirmation step, write access, and the companies the user can act on. -/
structure MergeCtx where
  confirmed : Bool
  canWrite : Bool
  userCompanyIds : List Nat

/-- Modelled from the spec: the ambient store transaction wrapping the
Execute step (the ORM cursor, code of this repository outside `src/`) — on
any failure the whole transaction rolls back and the triggering error is
surfaced unchanged, so the pre-merge state is what remains observable. -/
def runAtomic (f : MergeState → Except OdooError MergeState) (s : MergeState) :
    MergeState × Option OdooError :=
  match f s with
  | .ok s2 => (s2, none)
  | .error e => (s, some e)

/-- Step 5 of `_action_merge`: write the chosen per-company codes onto the
surviving account. -/
def applyCodes (a : Account) (codeMap : List (Nat × String)) : Account :=
  { a with codes := codeMap.foldl (fun cs p => setCode cs p.1 p.2) a.codes }

/-- Step 5 of `_action_merge` applied to one row: the survivor receives the
chosen per-company codes and the union of the merged accounts' companies. -/
def mergeSurvivorRow (survivor : Account) (codeMap : List (Nat × String))
    (selfAccounts : List Account) (a : Account) : Account :=
  if a.id = survivor.id then
    { applyCodes a codeMap with
      companyIds := dedupKeepFirst [] (selfAccounts.map (fun b => b.companyIds)).flatten }
  else a

/-- The body of `AccountAccount._action_merge` as one state transformation:
the access checks (step 2), the rewrite of every reference from the merged
accounts to the survivor (steps 3.1 and 3.2), the deletion of the merged
account rows (step 4), and the survivor's codes and final company set
(step 5).  `injectFailure` raises between the reference rewrite and the
deletion, the injection point of the atomicity experiment. -/
def action_merge_body (ctx : MergeCtx) (survivor : Account)
    (codeMap : List (Nat × String)) (selfAccounts : List Account) (injectFailure : Bool)
    (s : MergeState) : Except OdooError MergeState :=
  if !ctx.canWrite then .error (.userError "access denied")
  else if ((selfAccounts.map (fun a => a.companyIds)).flatten.filter
      (fun c => !ctx.userCompanyIds.contains c)) ≠ [] then
    .error (.userError "You do not have the right to perform this operation as you do not have access to the companies involved.")
  else
    let removedIds := (selfAccounts.map (fun a => a.id)).filter (fun i => i ≠ survivor.id)
    let s1 : MergeState :=
      { s with refs := s.refs.map (fun rf =>
          if removedIds.contains rf.target then { rf with target := survivor.id } else rf) }
    if injectFailure then .error (.userError "injected failure")
    else
      let s2 : MergeState :=
        { s1 with accounts := s1.accounts.filter (fun a => !removedIds.contains a.id) }
      .ok { s2 with accounts := s2.accounts.map (mergeSurvivorRow survivor codeMap selfAccounts) }

/-- Shallow embedding of `AccountAccount.action_merge`: validation by
`_check_action_merge_possible` (a pure read), the user-confirmation step (a
`RedirectWarning` is raised unless the `account_merge_confirm` context flag
is set), then the Execute step inside the ambient transaction.  The result
pairs the observable state with the raised error, if any. -/
def action_merge (env : MergeEnv) (ctx : MergeCtx) (ids : List Nat)
    (injectFailure : Bool) (s : MergeState) : MergeState × Option OdooError :=
  match check_action_merge_possible env (s.accounts.filter (fun a => ids.contains a.id)) with
  | .error e => (s, some e)
  | .ok (survivor, codeMap) =>
    if !ctx.confirmed then
      (s, some (.redirectWarning "Are you sure? This will perform the merge."))
    else
      runAtomic
        (action_merge_body ctx survivor codeMap
          (s.accounts.filter (fun a => ids.contains a.id)) injectFailure) s

/-- C2: whenever the merge fails — a validation failure such as differing
`account_type` (which raises `UserError`), a missing confirmation, an
access failure, or a failure injected between the reference rewrite and the
account deletion — the observable state is exactly the pre-merge state:
accounts, codes, company memberships and references are untouched.
Validation reads the state but writes nothing; the Execute step runs inside
the ambient transaction, whose rollback is modelled from the spec. -/
theorem action_merge_atomicity (env : MergeEnv) (ctx : MergeCtx) (ids : List Nat)
    (injectFailure : Bool) (s : MergeState) :
    (∀ e, (action_merge env ctx ids injectFailure s).2 = some e →
      (action_merge env ctx ids injectFailure s).1 = s) ∧
    (allEqBy (s.accounts.filter (fun a => ids.contains a.id)) (fun a => a.accountType)
        = false →
      ∃ msg, (action_merge env ctx ids injectFailure s).2 = some (.userError msg) ∧
        (action_merge env ctx ids injectFailure s).1 = s) := by
  constructor
  · intro e
    unfold action_merge
    split
    · intro _
      rfl
    · split
      · intro _
        rfl
      · unfold runAtomic
        split
        · intro he
          cases he
        · intro _
          rfl
  · intro hdiff
    have hcheck : ∃ msg, check_action_merge_possible env
        (s.accounts.filter (fun a => ids.contains a.id)) = .error (.userError msg) := by
      unfold check_action_merge_possible
      split
      · exact ⟨_, rfl⟩
      · rw [if_pos ?_]
        · exact ⟨_, rfl⟩
        · unfold equalityChecksPass
          rw [hdiff]
          simp
    obtain ⟨msg, hmsg⟩ := hcheck
    unfold action_merge
    rw [hmsg]
    exact ⟨msg, rfl, rfl⟩

/-- First account of the validation-failure C2 instance. -/
def accC2A : Account :=
  { id := 1, companyIds := [1], codes := [(1, "100")], currencyId := none,
    deprecated := false, accountType := "asset_current", reconcile := false,
    nonTrade := false, taxIds := [] }

/-- Second account of the validation-failure C2 instance: its
`account_type` differs from the first one's. -/
def accC2B : Account :=
  { id := 2, companyIds := [1], codes := [(1, "200")], currencyId := none,
    deprecated := false, accountType := "income", reconcile := false,
    nonTrade := false, taxIds := [] }

/-- State of the validation-failure C2 instance: the two accounts and a row
referencing the second one. -/
def stateC2 : MergeState :=
  { accounts := [accC2A, accC2B], refs := [{ refId := 50, target := 2 }] }

/-- State of the injected-failure C2 instance: two mergeable accounts and a
row referencing the second one. -/
def stateC2b : MergeState :=
  { accounts := [accC3A, accC3B], refs := [{ refId := 50, target := 2 }] }

/-- Caller context of the C2 instances: confirmed, with write access and
access to company 1. -/
def ctxC2 : MergeCtx := { confirmed := true, canWrite := true, userCompanyIds := [1] }

/-- Closed instantiation of the C2 theorem: an injected failure between
reference rewrite and deletion leaves the state untouched, and merging two
accounts of different types fails with the state untouched. -/
theorem action_merge_atomicity_witness :
    (action_merge envC3 ctxC2 [1, 2] true stateC2b).1 = stateC2b ∧
    (action_merge envC3 ctxC2 [1, 2] false stateC2).1 = stateC2 := by
  constructor
  · exact (action_merge_atomicity envC3 ctxC2 [1, 2] true stateC2b).1
      (.userError "injected failure") (by rfl)
  · obtain ⟨msg, hsnd, hfst⟩ :=
      (action_merge_atomicity envC3 ctxC2 [1, 2] false stateC2).2 (by rfl)
    exact hfst
